import Mathlib

/-!
# Verification of the tmux two-agent relay script (`text_messages.py`)

A shallow embedding of the pure core of the relay program: boundary
counting (`count_prompts`), the stabilization poll loop
(`wait_for_prompt`), message extraction (`extract_response`), the relay
step (`relay_response` and the main-loop dispatch `loop_step`), and the
input-delivery branching (`send_to_pane`).

Strings are modelled as `List Char`, matching the Python code point
semantics of `len`, slicing, `find`, `strip`, `replace` and `in`.
Fallible operations (negative indexing, `max` of a possibly empty
sequence) return `Option`.
-/

set_option autoImplicit false

namespace TextMessages

/-! ### Python-style string primitives on `List Char` -/

/-- Python `str.strip()`: drop whitespace from both ends. -/
def pyStrip (s : List Char) : List Char :=
  ((s.dropWhile Char.isWhitespace).reverse.dropWhile Char.isWhitespace).reverse

/-- Python `str.lstrip()`: drop leading whitespace. -/
def pyLstrip (s : List Char) : List Char :=
  s.dropWhile Char.isWhitespace

/-- Python `s.replace("...", " ")`: every non-overlapping occurrence of
three consecutive dots, scanned left to right, becomes one space. -/
def replaceEllipsis : List Char → List Char
  | '.' :: '.' :: '.' :: rest => ' ' :: replaceEllipsis rest
  | c :: rest => c :: replaceEllipsis rest
  | [] => []

/-- Python `s.replace("...", " ", 1)`: only the first occurrence of three
consecutive dots becomes one space. -/
def replaceFirstEllipsis : List Char → List Char
  | '.' :: '.' :: '.' :: rest => ' ' :: rest
  | c :: rest => c :: replaceFirstEllipsis rest
  | [] => []

/-- Auxiliary scan for `pyFind`: first index `≥ i` at which `pat` matches. -/
def pyFindAux (pat : List Char) : List Char → Nat → Option Nat
  | [], i => if pat.isPrefixOf ([] : List Char) then some i else none
  | c :: rest, i =>
    if pat.isPrefixOf (c :: rest) then some i else pyFindAux pat rest (i + 1)

/-- Python `s.find(pat)`: index of the first occurrence, `none` for `-1`. -/
def pyFind (s pat : List Char) : Option Nat :=
  pyFindAux pat s 0

/-- Python `" ".join(...)`. -/
def joinSpace : List (List Char) → List Char
  | [] => []
  | [x] => x
  | x :: y :: rest => x ++ ' ' :: joinSpace (y :: rest)

/-- Python `max(...)` over a list: `none` when the list is empty
(where Python raises `ValueError`). -/
def pyMaxList : List Nat → Option Nat
  | [] => none
  | x :: xs => some (xs.foldl max x)

/-! ### Markers and boundary scanning -/

/-- The boundary marker `">>> Send a message"`. -/
def PROMPT_MARKER : List Char := ">>> Send a message".toList

/-- The speaker tag of the man. -/
def HIM_TAG : List Char := "👨 Him:".toList

/-- The speaker tag of the woman. -/
def HER_TAG : List Char := "👩 Her:".toList

/-- The continuation-marker token `"..."`. -/
def ELLIPSIS : List Char := "...".toList

/-- Python `pat in s`: substring containment. -/
def pyContains (s pat : List Char) : Bool :=
  (pyFind s pat).isSome

/-- A line is a boundary line when it contains the prompt marker. -/
def isBoundary (line : List Char) : Bool :=
  pyContains line PROMPT_MARKER

/-- `count_prompts`: how many lines contain the prompt marker. -/
def count_prompts (lines : List (List Char)) : Nat :=
  lines.countP (fun l => isBoundary l)

/-- A line is blank when it strips to the empty string. -/
def isBlank (line : List Char) : Bool :=
  (pyStrip line).isEmpty

/-- A command-echo line: after stripping, it starts with `">>>"`. -/
def isCmdLine (line : List Char) : Bool :=
  ['>', '>', '>'].isPrefixOf (pyStrip line)

/-! ### `extract_response` -/

/-- Indices of lines containing the prompt marker (ascending). -/
def prompt_indices (lines : List (List Char)) : List Nat :=
  (lines.enum.filter (fun p => isBoundary p.2)).map Prod.fst

/-- Indices `i` with `0 < i < L` whose line strips to a `">>>"`-leading
string, excluding boundary lines.  Note the source skips index 0. -/
def command_markers (lines : List (List Char)) (L : Nat) : List Nat :=
  ((List.range L).filter
      (fun i => decide (0 < i) && isCmdLine (lines.getD i []))).filter
    (fun i => ! isBoundary (lines.getD i []))

/-- The left-edge computation of `extract_response`: start of the slice.
`none` marks the place where Python `max` of an empty sequence would raise. -/
def start_idx (lines : List (List Char)) (L : Nat) : Option Nat :=
  if (command_markers lines L).length < 1 then some 0
  else
    Option.map (fun m => m + 1)
      (pyMaxList ((command_markers lines L).filter (fun m => decide (m < L))))

/-- Drop blank lines from both ends of the slice (the two `pop` loops). -/
def trimBlanks (ls : List (List Char)) : List (List Char) :=
  ((ls.dropWhile isBlank).reverse.dropWhile isBlank).reverse

/-- Fallback cleaning of one line: when the stripped line starts with the
ellipsis token, replace its first occurrence by a space and lstrip. -/
def cleanFallbackLine (line : List Char) : List Char :=
  if ELLIPSIS.isPrefixOf (pyStrip line) then pyLstrip (replaceFirstEllipsis line)
  else line

/-- Body of the tagged branch: everything after the tag, stripped, with
each ellipsis-token occurrence replaced by a space. -/
def taggedBody (full_text : List Char) (pos : Nat) (tag : List Char) : List Char :=
  replaceEllipsis (pyStrip (full_text.drop (pos + tag.length)))

/-- `extract_response`: isolate the latest message from a pane snapshot.
`none` marks the unreachable raising paths (see the totality theorem). -/
def extract_response (lines : List (List Char)) : Option (List Char) :=
  if (prompt_indices lines).isEmpty then some [] else
  match (prompt_indices lines).getLast? with
  | none => none
  | some L =>
    match start_idx lines L with
    | none => none
    | some s =>
      let response_lines := trimBlanks ((lines.take L).drop s)
      let full_text := joinSpace (response_lines.map pyStrip)
      match pyFind full_text HIM_TAG with
      | some p => some (taggedBody full_text p HIM_TAG)
      | none =>
        match pyFind full_text HER_TAG with
        | some p => some (taggedBody full_text p HER_TAG)
        | none => some (response_lines.map cleanFallbackLine).flatten

/-! ### `wait_for_prompt`

The poll loop is embedded over an explicit poll oracle
`polls : Nat → List (List Char)` (the successive pane snapshots) with a
fuel bound replacing the unbounded `while True`.  The state carried by
the loop is the stability counter `sc`, the last differing snapshot
`last`, and the current poll index `i`.  On success it returns the poll
index at which the buffer was returned together with the buffer. -/

def wait_for_prompt (polls : Nat → List (List Char)) (base settle : Nat) :
    Nat → Nat → List (List Char) → Nat → Option (Nat × List (List Char))
  | 0, _, _, _ => none
  | fuel + 1, sc, last, i =>
    let lines := polls i
    if base < count_prompts lines then
      if lines = last then
        if settle ≤ sc + 1 then some (i, lines)
        else wait_for_prompt polls base settle fuel (sc + 1) last (i + 1)
      else wait_for_prompt polls base settle fuel 0 lines (i + 1)
    else wait_for_prompt polls base settle fuel sc last (i + 1)

/-- Number of poll indices in `[j, j + n)` whose snapshot has strictly
more boundary lines than `base`. -/
def overCount (polls : Nat → List (List Char)) (base : Nat) : Nat → Nat → Nat
  | _, 0 => 0
  | j, n + 1 =>
    (if base < count_prompts (polls j) then 1 else 0) + overCount polls base (j + 1) n

/-- Every poll in `[j, r]` whose boundary count exceeds `base` shows
exactly the buffer `b`. -/
def goodWindow (polls : Nat → List (List Char)) (base : Nat)
    (b : List (List Char)) (j r : Nat) : Prop :=
  ∀ k, j ≤ k → k ≤ r → base < count_prompts (polls k) → polls k = b

/-! ### `relay_response` and the main loop -/

/-- The global mutable state of the relay: `last_response` and
`last_sender`. -/
structure RelayState where
  last_response : List Char
  last_sender : String
deriving DecidableEq

/-- One `relay_response` call, given the stabilized pane snapshot
`lines`.  The second component is the payload passed to `send_to_pane`
(`none` when no delivery call is made).  The `none` branch of
`extract_response` is unreachable (totality theorem) and performs no
state change. -/
def relay_response (lines : List (List Char)) (sender_flag : String)
    (st : RelayState) : RelayState × Option (List Char) :=
  match extract_response lines with
  | none => (st, none)
  | some response =>
    if response.isEmpty then (st, none)
    else if response = st.last_response then (st, none)
    else (⟨response, sender_flag⟩, some response)

/-- One iteration of the main conversation loop: when `last_sender` is
`"M"` relay from the man with flag `"W"`, otherwise relay from the woman
with flag `"M"`.  `linesM` and `linesW` are the stabilized snapshots the
respective relay would observe. -/
def loop_step (st : RelayState) (linesM linesW : List (List Char)) :
    RelayState × Option (List Char) :=
  if st.last_sender = "M" then relay_response linesM "W" st
  else relay_response linesW "M" st

/-- The abstract turn state of the spec.  `AwaitingWoman` is the state in
which the next successful relay carries the man's message to the woman
(the `last_sender = "M"` branch of the loop), `AwaitingMan` the state in
which it carries the woman's message to the man. -/
inductive TurnState
  | AwaitingMan
  | AwaitingWoman
deriving DecidableEq

/-- The `last_sender` flag value the loop holds in each turn state. -/
def TurnState.flag : TurnState → String
  | .AwaitingWoman => "M"
  | .AwaitingMan => "W"

/-- The opposite turn state. -/
def TurnState.otherTurn : TurnState → TurnState
  | .AwaitingWoman => .AwaitingMan
  | .AwaitingMan => .AwaitingWoman

/-- Read a `last_sender` flag back as a turn state. -/
def flagToTurn (s : String) : TurnState :=
  if s = "M" then .AwaitingWoman else .AwaitingMan

/-! ### `send_to_pane` -/

/-- The externally visible actions of `send_to_pane`, in order.  The
`Bool` on the tmux buffer operations records the reported status of the
external call (`false` = the call failed); `subprocess.run` does not
raise on failure, so the status does not alter control flow. -/
inductive Effect
  | writeTemp (msg : List Char)
  | loadBuffer (ok : Bool)
  | pasteBuffer (ok : Bool)
  | unlinkTemp
  | sendKeysLiteral (msg : List Char)
  | sendSubmit
deriving DecidableEq

/-- The action trace of one `send_to_pane` call.  Messages over 1000
characters or containing a newline go through a temporary file and the
tmux paste buffer, with the temporary file removed in a `finally`
block; short single-line messages are sent as literal keystrokes.  An
Enter keystroke always follows. -/
def send_to_pane (message : List Char) (loadOk pasteOk : Bool) : List Effect :=
  (if 1000 < message.length || message.contains '\n' then
    [Effect.writeTemp message, Effect.loadBuffer loadOk,
     Effect.pasteBuffer pasteOk, Effect.unlinkTemp]
  else
    [Effect.sendKeysLiteral message]) ++ [Effect.sendSubmit]

/-! ### Definitions taken from the claims (for refinement comparison) -/

/-- Modelled from the claim wording for the left edge of the extraction
slice: among all line indices before `L` (including index 0) whose line
begins with the `">>>"` token and is not itself a boundary line, the
closest one before `L` is `S`, and the left edge is `S + 1`; with no
such line the left edge is 0. -/
def specLeftEdge (lines : List (List Char)) (L : Nat) : Nat :=
  match ((List.range L).filter
      (fun i => isCmdLine (lines.getD i []) && ! isBoundary (lines.getD i []))).getLast? with
  | some S => S + 1
  | none => 0

/-! ### Concrete poll oracles used by witnesses and counterexamples -/

/-- A pane that always shows a single boundary line. -/
def pollsConst : Nat → List (List Char) :=
  fun _ => [PROMPT_MARKER]

/-- A pane whose snapshots alternate between a single boundary line
(even polls) and an empty capture (odd polls). -/
def pollsAlt : Nat → List (List Char) :=
  fun i => if i % 2 = 0 then [PROMPT_MARKER] else []

/-! ### Helper lemmas -/

theorem mem_command_markers {lines : List (List Char)} {L i : Nat} :
    i ∈ command_markers lines L ↔
      i < L ∧ 0 < i ∧ isCmdLine (lines.getD i []) = true ∧
        isBoundary (lines.getD i []) = false := by
  simp [command_markers, List.mem_filter, List.mem_range, Bool.and_eq_true,
    decide_eq_true_iff, Bool.not_eq_true', and_assoc]
  tauto

theorem pyMaxList_isSome {l : List Nat} (h : l ≠ []) : (pyMaxList l).isSome = true := by
  cases l with
  | nil => exact absurd rfl h
  | cons x xs => simp [pyMaxList]

theorem foldl_max_le_of_mem : ∀ (xs : List Nat) (a k : Nat), k ∈ xs → k ≤ xs.foldl max a := by
  intro xs
  induction xs with
  | nil => intro a k hk; cases hk
  | cons x xs ih =>
    intro a k hk
    rcases List.mem_cons.mp hk with h | h
    · subst h
      calc k ≤ max a k := le_max_right a k
        _ ≤ (xs.foldl max (max a k)) := by
            clear hk ih
            induction xs generalizing a with
            | nil => exact le_rfl
            | cons y ys ihy =>
              calc max a k ≤ max (max a k) y := le_max_left _ _
                _ ≤ ys.foldl max (max (max a k) y) := by
                    simpa [max_assoc, max_comm, max_left_comm] using
                      ihy (a := max a y)
                _ = List.foldl max (max a k) (y :: ys) := by simp [List.foldl]
    · exact ih (max a x) k h

theorem le_foldl_max : ∀ (xs : List Nat) (a : Nat), a ≤ xs.foldl max a := by
  intro xs
  induction xs with
  | nil => intro a; exact le_rfl
  | cons x xs ih =>
    intro a
    calc a ≤ max a x := le_max_left a x
      _ ≤ xs.foldl max (max a x) := ih (max a x)
      _ = List.foldl max a (x :: xs) := rfl

theorem foldl_max_mem : ∀ (xs : List Nat) (a : Nat),
    xs.foldl max a = a ∨ xs.foldl max a ∈ xs := by
  intro xs
  induction xs with
  | nil => intro a; exact Or.inl rfl
  | cons x xs ih =>
    intro a
    rcases ih (max a x) with h | h
    · rcases max_choice a x with hm | hm
      · left
        simpa [hm] using h
      · right
        rw [List.foldl, h, hm]
        exact List.mem_cons_self x xs
    · right
      exact List.mem_cons_of_mem x h

theorem pyMaxList_mem {l : List Nat} {m : Nat} (h : pyMaxList l = some m) : m ∈ l := by
  cases l with
  | nil => simp [pyMaxList] at h
  | cons x xs =>
    simp only [pyMaxList, Option.some.injEq] at h
    subst h
    rcases foldl_max_mem xs x with h | h
    · rw [h]; exact List.mem_cons_self x xs
    · exact List.mem_cons_of_mem x h

theorem pyMaxList_ge {l : List Nat} {m : Nat} (h : pyMaxList l = some m) :
    ∀ k ∈ l, k ≤ m := by
  cases l with
  | nil => simp [pyMaxList] at h
  | cons x xs =>
    simp only [pyMaxList, Option.some.injEq] at h
    subst h
    intro k hk
    rcases List.mem_cons.mp hk with h | h
    · subst h; exact le_foldl_max xs k
    · exact foldl_max_le_of_mem xs x k h

theorem command_markers_filter_lt {lines : List (List Char)} {L : Nat} :
    (command_markers lines L).filter (fun m => decide (m < L)) =
      command_markers lines L := by
  apply List.filter_eq_self.mpr
  intro a ha
  simpa using (mem_command_markers.mp ha).1

theorem start_idx_isSome (lines : List (List Char)) (L : Nat) :
    (start_idx lines L).isSome = true := by
  unfold start_idx
  by_cases h : (command_markers lines L).length < 1
  · simp [h]
  · have hne : command_markers lines L ≠ [] := by
      intro he
      rw [he] at h
      exact h (by simp)
    rw [if_neg h, command_markers_filter_lt]
    cases hcm : command_markers lines L with
    | nil => exact absurd hcm hne
    | cons x xs => simp [pyMaxList]

/-! ### Claim theorems -/

/-- C1: on the spec instance — a buffer whose final lines are a line
carrying leaked text plus the man speaker tag followed by the boundary
line, with no non-boundary `">>>"` line before the boundary —
`extract_response` returns exactly the text after the tag, trimmed,
with no trailing boundary marker. -/
theorem extract_him_tag_instance :
    extract_response
        (["hi there", ">>> Send a message",
          "blah blah 👨 Him: hello there how are you",
          ">>> Send a message"].map String.toList) =
      some ("hello there how are you".toList) := by
  rfl

/-- C5: `extract_response` is total — for every buffer it returns a
string; the internal `none` paths (negative indexing on an empty index
list, `max` over an empty sequence) are unreachable. -/
theorem extract_response_total (lines : List (List Char)) :
    (extract_response lines).isSome = true := by
  unfold extract_response
  cases hpi : (prompt_indices lines).isEmpty with
  | true => simp
  | false =>
    have hne : prompt_indices lines ≠ [] := by
      intro he
      rw [he] at hpi
      simp at hpi
    obtain ⟨L, hL⟩ := Option.isSome_iff_exists.mp (List.getLast?_isSome.mpr hne)
    obtain ⟨s, hs⟩ := Option.isSome_iff_exists.mp (start_idx_isSome lines L)
    simp only [hpi, Bool.false_eq_true, if_false, hL, hs]
    cases pyFind (joinSpace ((trimBlanks ((lines.take L).drop s)).map pyStrip)) HIM_TAG with
    | some p => simp
    | none =>
      cases pyFind (joinSpace ((trimBlanks ((lines.take L).drop s)).map pyStrip)) HER_TAG with
      | some p => simp
      | none => simp

/-- C3: when extraction yields the empty string, or a body equal to the
stored `last_response`, `relay_response` makes no delivery call and
leaves the whole state (turn flag and `last_response`) unchanged. -/
theorem relay_skip_no_state_change (lines : List (List Char)) (flag : String)
    (st : RelayState) (body : List Char)
    (hx : extract_response lines = some body)
    (h : body = [] ∨ body = st.last_response) :
    relay_response lines flag st = (st, none) := by
  unfold relay_response
  rw [hx]
  rcases h with h | h
  · simp [h]
  · subst h
    by_cases he : st.last_response.isEmpty <;> simp [he]

/-- Witness for C3 at a concrete duplicate body. -/
theorem relay_skip_no_state_change_witness :
    relay_response (["👨 Him: hi", ">>> Send a message"].map String.toList) "W"
        ⟨"hi".toList, "M"⟩ = (⟨"hi".toList, "M"⟩, none) :=
  relay_skip_no_state_change _ "W" _ ("hi".toList) (by rfl) (Or.inr rfl)

/-- C8: after a `relay_response` call, `last_response` equals the
delivered payload when a delivery was made, and is untouched when the
call skipped (empty or duplicate extraction). -/
theorem relay_history_tracks_delivery (lines : List (List Char)) (flag : String)
    (st : RelayState) :
    (∃ b, (relay_response lines flag st).2 = some b ∧
        (relay_response lines flag st).1.last_response = b) ∨
      ((relay_response lines flag st).2 = none ∧
        (relay_response lines flag st).1.last_response = st.last_response) := by
  unfold relay_response
  cases hx : extract_response lines with
  | none => right; simp
  | some body =>
    by_cases he : body.isEmpty
    · right; simp [he]
    · by_cases hd : body = st.last_response
      · right; simp [he, hd]
      · left; exact ⟨body, by simp [he, hd], by simp [he, hd]⟩

/-- C2: one main-loop iteration changes the turn state iff extraction
yields a non-empty body different from the last relayed one, and on a
change it flips to the other turn; from `AwaitingWoman` the successful
relay carries the man's message and yields `AwaitingMan`, and
conversely. -/
theorem relay_turn_alternation (t : TurnState) (lr : List Char)
    (linesM linesW : List (List Char)) (body : List Char)
    (hx : extract_response (if t = TurnState.AwaitingWoman then linesM else linesW) =
      some body) :
    flagToTurn (loop_step ⟨lr, t.flag⟩ linesM linesW).1.last_sender =
        (if body ≠ [] ∧ body ≠ lr then t.otherTurn else t) ∧
      ((loop_step ⟨lr, t.flag⟩ linesM linesW).2 ≠ none ↔ (body ≠ [] ∧ body ≠ lr)) := by
  cases t <;>
    simp only [TurnState.flag, reduceCtorEq, if_true, if_false, reduceIte] at hx ⊢ <;>
    · unfold loop_step relay_response
      simp only []
      by_cases hb : body = [] <;> by_cases hd : body = lr <;>
        simp [hx, hb, hd, flagToTurn, TurnState.otherTurn]

/-- Witness for C2 at a concrete successful relay from the man. -/
theorem relay_turn_alternation_witness :
    flagToTurn (loop_step ⟨[], TurnState.flag TurnState.AwaitingWoman⟩
          (["👨 Him: hey", ">>> Send a message"].map String.toList) []).1.last_sender =
        (if "hey".toList ≠ [] ∧ "hey".toList ≠ ([] : List Char)
          then TurnState.otherTurn TurnState.AwaitingWoman
          else TurnState.AwaitingWoman) ∧
      ((loop_step ⟨[], TurnState.flag TurnState.AwaitingWoman⟩
          (["👨 Him: hey", ">>> Send a message"].map String.toList) []).2 ≠ none ↔
        ("hey".toList ≠ [] ∧ "hey".toList ≠ ([] : List Char))) :=
  relay_turn_alternation TurnState.AwaitingWoman [] _ [] ("hey".toList) (by rfl)

/-- C7 counterexample: in the tagged branch, a run of six consecutive
dots (two adjacent ellipsis tokens) becomes two spaces, not the single
space the claim demands. -/
theorem ellipsis_run_two_spaces_cex :
    extract_response (["👨 Him: hi......there", ">>> Send a message"].map String.toList) =
        some ("hi  there".toList) ∧
      "hi  there".toList ≠ "hi there".toList := by
  exact ⟨by rfl, by decide⟩

/-- C6 counterexample: with the only `">>>"`-leading non-boundary line at
index 0, the code takes the left edge 0 (index 0 is skipped), while the
claim computes left edge `0 + 1 = 1`; the extracted text keeps the
marker line. -/
theorem left_edge_skips_index_zero_cex :
    (prompt_indices ([">>> hello", "body", ">>> Send a message"].map String.toList)).getLast? =
        some 2 ∧
      start_idx ([">>> hello", "body", ">>> Send a message"].map String.toList) 2 = some 0 ∧
      specLeftEdge ([">>> hello", "body", ">>> Send a message"].map String.toList) 2 = 1 ∧
      isCmdLine ((([">>> hello", "body", ">>> Send a message"].map String.toList)).getD 0 []) =
        true ∧
      isBoundary ((([">>> hello", "body", ">>> Send a message"].map String.toList)).getD 0 []) =
        false ∧
      extract_response ([">>> hello", "body", ">>> Send a message"].map String.toList) =
        some (">>> hellobody".toList) ∧
      (0 : Nat) ≠ 1 := by
  refine ⟨by rfl, by rfl, by rfl, by rfl, by rfl, by rfl, by decide⟩

/-- C9: `send_to_pane` sends literal keystrokes iff the payload fits in
1000 characters with no newline; otherwise it writes a temporary file
and pastes through the tmux buffer, removing the temporary file whatever
status the buffer operations report; either way the submit keystroke
comes last. -/
theorem send_to_pane_branching (message : List Char) (loadOk pasteOk : Bool) :
    ((Effect.sendKeysLiteral message ∈ send_to_pane message loadOk pasteOk) ↔
        (message.length ≤ 1000 ∧ '\n' ∉ message)) ∧
      ((Effect.writeTemp message ∈ send_to_pane message loadOk pasteOk) ↔
        (1000 < message.length ∨ '\n' ∈ message)) ∧
      ((Effect.pasteBuffer pasteOk ∈ send_to_pane message loadOk pasteOk) ↔
        (1000 < message.length ∨ '\n' ∈ message)) ∧
      ((Effect.unlinkTemp ∈ send_to_pane message loadOk pasteOk) ↔
        (1000 < message.length ∨ '\n' ∈ message)) ∧
      (send_to_pane message loadOk pasteOk).getLast? = some Effect.sendSubmit := by
  by_cases h : 1000 < message.length ∨ '\n' ∈ message
  · have hb : (1000 < message.length || message.contains '\n') = true := by
      rcases h with h | h <;> simp [h]
    rw [send_to_pane, if_pos hb]
    refine ⟨?_, ?_, ?_, ?_, ?_⟩
    · simp
      intro h1
      rcases h with h | h
      · omega
      · exact h
    · simp [h]
    · simp [h]
    · simp [h]
    · exact List.getLast?_concat _
  · have h1 : message.length ≤ 1000 := by
      by_contra hgt
      exact h (Or.inl (by omega))
    have h2 : '\n' ∉ message := fun hc => h (Or.inr hc)
    have hb : (1000 < message.length || message.contains '\n') = false := by
      simp [h1, h2]
    rw [send_to_pane, if_neg (by simpa using And.intro h1 h2)]
    refine ⟨?_, ?_, ?_, ?_, ?_⟩
    · simp
      exact ⟨h1, h2⟩
    · simp [h]
    · simp [h]
    · simp [h]
    · exact List.getLast?_concat _

/-- Witness for C9 at a concrete short single-line payload. -/
theorem send_to_pane_branching_witness :
    ((Effect.sendKeysLiteral ("hi".toList) ∈ send_to_pane ("hi".toList) true false) ↔
        (("hi".toList).length ≤ 1000 ∧ '\n' ∉ "hi".toList)) ∧
      ((Effect.writeTemp ("hi".toList) ∈ send_to_pane ("hi".toList) true false) ↔
        (1000 < ("hi".toList).length ∨ '\n' ∈ "hi".toList)) ∧
      ((Effect.pasteBuffer false ∈ send_to_pane ("hi".toList) true false) ↔
        (1000 < ("hi".toList).length ∨ '\n' ∈ "hi".toList)) ∧
      ((Effect.unlinkTemp ∈ send_to_pane ("hi".toList) true false) ↔
        (1000 < ("hi".toList).length ∨ '\n' ∈ "hi".toList)) ∧
      (send_to_pane ("hi".toList) true false).getLast? = some Effect.sendSubmit :=
  send_to_pane_branching ("hi".toList) true false

/-- Loop invariant of `wait_for_prompt`: a returned pair `(r, b)` has a
boundary surplus, and either the comparison snapshot never changed again
(`b = last`, with `settle - sc` further confirmations ahead) or some
later poll `j` recorded `b` as the fresh comparison snapshot and `b` was
then confirmed `settle` more times, every over-baseline poll from `j`
on showing exactly `b`. -/
theorem wait_for_prompt_inv (polls : Nat → List (List Char)) (base settle : Nat) :
    ∀ fuel sc last i r b,
      wait_for_prompt polls base settle fuel sc last i = some (r, b) →
      base < count_prompts b ∧ i ≤ r ∧
        ((b = last ∧ goodWindow polls base b i r ∧
            settle ≤ sc + overCount polls base i (r + 1 - i)) ∨
          (∃ j, i ≤ j ∧ j ≤ r ∧ polls j = b ∧ goodWindow polls base b j r ∧
            settle + 1 ≤ overCount polls base j (r + 1 - j))) := by
  intro fuel
  induction fuel with
  | zero =>
    intro sc last i r b h
    simp [wait_for_prompt] at h
  | succ fuel ih =>
    intro sc last i r b h
    simp only [wait_for_prompt] at h
    by_cases h1 : base < count_prompts (polls i)
    · rw [if_pos h1] at h
      by_cases h2 : polls i = last
      · rw [if_pos h2] at h
        by_cases h3 : settle ≤ sc + 1
        · rw [if_pos h3] at h
          simp only [Option.some.injEq, Prod.mk.injEq] at h
          obtain ⟨rfl, rfl⟩ := h
          refine ⟨h1, le_rfl, Or.inl ⟨h2, ?_, ?_⟩⟩
          · intro k hk1 hk2 _
            have : k = i := le_antisymm hk2 hk1
            rw [this]
          · have he : i + 1 - i = 1 := by omega
            rw [he, overCount, if_pos h1, overCount]
            omega
        · rw [if_neg h3] at h
          obtain ⟨hcount, hir, hcase⟩ := ih (sc + 1) last (i + 1) r b h
          refine ⟨hcount, by omega, ?_⟩
          rcases hcase with ⟨hbl, hw, hs⟩ | ⟨j, hj1, hj2, hjb, hw, hs⟩
          · left
            refine ⟨hbl, ?_, ?_⟩
            · intro k hk1 hk2 hkc
              rcases Nat.eq_or_lt_of_le hk1 with heq | hlt
              · rw [← heq, h2, ← hbl]
              · exact hw k (by omega) hk2 hkc
            · have he : r + 1 - i = (r + 1 - (i + 1)) + 1 := by omega
              rw [he, overCount, if_pos h1]
              omega
          · exact Or.inr ⟨j, by omega, hj2, hjb, hw, hs⟩
      · rw [if_neg h2] at h
        obtain ⟨hcount, hir, hcase⟩ := ih 0 (polls i) (i + 1) r b h
        refine ⟨hcount, by omega, ?_⟩
        rcases hcase with ⟨hbl, hw, hs⟩ | ⟨j, hj1, hj2, hjb, hw, hs⟩
        · right
          refine ⟨i, le_rfl, by omega, hbl.symm, ?_, ?_⟩
          · intro k hk1 hk2 hkc
            rcases Nat.eq_or_lt_of_le hk1 with heq | hlt
            · rw [← heq, ← hbl]
            · exact hw k (by omega) hk2 hkc
          · have he : r + 1 - i = (r + 1 - (i + 1)) + 1 := by omega
            rw [he, overCount, if_pos h1]
            omega
        · exact Or.inr ⟨j, by omega, hj2, hjb, hw, hs⟩
    · rw [if_neg h1] at h
      obtain ⟨hcount, hir, hcase⟩ := ih sc last (i + 1) r b h
      refine ⟨hcount, by omega, ?_⟩
      rcases hcase with ⟨hbl, hw, hs⟩ | ⟨j, hj1, hj2, hjb, hw, hs⟩
      · left
        refine ⟨hbl, ?_, ?_⟩
        · intro k hk1 hk2 hkc
          rcases Nat.eq_or_lt_of_le hk1 with heq | hlt
          · exact absurd (heq ▸ hkc) h1
          · exact hw k (by omega) hk2 hkc
        · have he : r + 1 - i = (r + 1 - (i + 1)) + 1 := by omega
          rw [he, overCount, if_neg h1]
          omega
      · exact Or.inr ⟨j, by omega, hj2, hjb, hw, hs⟩

/-- C4 amended: a buffer `b` returned by `wait_for_prompt` (started with
a fresh stability counter) has strictly more boundary lines than the
baseline, and there is a poll `j` at which `b` was recorded such that
every subsequent poll showing more boundaries than the baseline showed
exactly `b`, and at least `settle + 1` such over-baseline observations
of `b` occurred (`j` plus `settle` confirmations); polls at or below the
baseline count may be interleaved between the confirmations, so the
identical observations need not be consecutive polls. -/
theorem wait_returns_matching_window (polls : Nat → List (List Char))
    (base settle fuel r : Nat) (b : List (List Char))
    (h : wait_for_prompt polls base settle fuel 0 [] 0 = some (r, b)) :
    base < count_prompts b ∧
      ∃ j, j ≤ r ∧ polls j = b ∧ goodWindow polls base b j r ∧
        settle + 1 ≤ overCount polls base j (r + 1 - j) := by
  obtain ⟨hcount, -, hcase⟩ := wait_for_prompt_inv polls base settle fuel 0 [] 0 r b h
  rcases hcase with ⟨hbl, -, -⟩ | ⟨j, -, hj2, hjb, hw, hs⟩
  · rw [hbl] at hcount
    exact absurd hcount (by simp [count_prompts])
  · exact ⟨hcount, j, hj2, hjb, hw, hs⟩

/-- Witness for C4 (amended) on a constant poll oracle. -/
theorem wait_returns_matching_window_witness :
    0 < count_prompts [PROMPT_MARKER] ∧
      ∃ j, j ≤ 3 ∧ pollsConst j = [PROMPT_MARKER] ∧
        goodWindow pollsConst 0 [PROMPT_MARKER] j 3 ∧
        3 + 1 ≤ overCount pollsConst 0 j (3 + 1 - j) :=
  wait_returns_matching_window pollsConst 0 3 10 3 [PROMPT_MARKER] (by rfl)

/-- C4 counterexample: on an oracle alternating between a one-boundary
snapshot and an empty snapshot, `wait_for_prompt` (baseline 0,
`settle_loops = 3`) returns the boundary snapshot at poll 6, yet no
three consecutive polls ever observed that buffer, because the polls
with no boundary surplus leave the stability counter untouched. -/
theorem wait_consecutive_polls_cex :
    wait_for_prompt pollsAlt 0 3 10 0 [] 0 = some (6, [PROMPT_MARKER]) ∧
      (∀ j, j ≤ 4 → ¬(pollsAlt j = [PROMPT_MARKER] ∧
        pollsAlt (j + 1) = [PROMPT_MARKER] ∧ pollsAlt (j + 2) = [PROMPT_MARKER])) := by
  exact ⟨by rfl, by decide⟩

/-- C6 amended: for a buffer whose last boundary index is `L`,
`extract_response` takes the left edge `S + 1`, where `S` is the closest
index before `L` with *positive* index whose line strips to a
`">>>"`-leading string and is not a boundary line; a qualifying line at
index 0 is skipped by the scan, and when no qualifying positive index
exists the left edge is 0. -/
theorem start_idx_closest_positive_marker (lines : List (List Char)) (L s : Nat)
    (h : start_idx lines L = some s) :
    (s = 0 ∧ ∀ i, 0 < i → i < L →
        ¬(isCmdLine (lines.getD i []) = true ∧ isBoundary (lines.getD i []) = false)) ∨
      (∃ S, s = S + 1 ∧ 0 < S ∧ S < L ∧ isCmdLine (lines.getD S []) = true ∧
        isBoundary (lines.getD S []) = false ∧
        ∀ k, S < k → k < L →
          ¬(isCmdLine (lines.getD k []) = true ∧ isBoundary (lines.getD k []) = false)) := by
  unfold start_idx at h
  by_cases hlen : (command_markers lines L).length < 1
  · rw [if_pos hlen] at h
    simp only [Option.some.injEq] at h
    left
    refine ⟨h.symm, ?_⟩
    rintro i hi0 hiL ⟨hc, hbnd⟩
    have hmem : i ∈ command_markers lines L :=
      mem_command_markers.mpr ⟨hiL, hi0, hc, hbnd⟩
    have : command_markers lines L ≠ [] := List.ne_nil_of_mem hmem
    rcases hcm : command_markers lines L with _ | ⟨x, xs⟩
    · exact this hcm
    · rw [hcm] at hlen
      simp at hlen
  · rw [if_neg hlen, command_markers_filter_lt] at h
    cases hm : pyMaxList (command_markers lines L) with
    | none =>
      rw [hm] at h
      simp at h
    | some m =>
      rw [hm] at h
      simp only [Option.map_some', Option.some.injEq] at h
      right
      have hmem := pyMaxList_mem hm
      obtain ⟨hmL, hm0, hmc, hmb⟩ := mem_command_markers.mp hmem
      refine ⟨m, h.symm, hm0, hmL, hmc, hmb, ?_⟩
      rintro k hk1 hk2 ⟨hc, hb⟩
      have hkmem : k ∈ command_markers lines L :=
        mem_command_markers.mpr ⟨hk2, by omega, hc, hb⟩
      have := pyMaxList_ge hm k hkmem
      omega

/-- Witness for C6 (amended) on a buffer with its marker at index 1. -/
theorem start_idx_closest_positive_marker_witness :
    ((2 : Nat) = 0 ∧ ∀ i, 0 < i → i < 3 →
        ¬(isCmdLine ((["x", ">>> abc", "body", ">>> Send a message"].map
              String.toList).getD i []) = true ∧
          isBoundary ((["x", ">>> abc", "body", ">>> Send a message"].map
              String.toList).getD i []) = false)) ∨
      (∃ S, (2 : Nat) = S + 1 ∧ 0 < S ∧ S < 3 ∧
        isCmdLine ((["x", ">>> abc", "body", ">>> Send a message"].map
            String.toList).getD S []) = true ∧
        isBoundary ((["x", ">>> abc", "body", ">>> Send a message"].map
            String.toList).getD S []) = false ∧
        ∀ k, S < k → k < 3 →
          ¬(isCmdLine ((["x", ">>> abc", "body", ">>> Send a message"].map
                String.toList).getD k []) = true ∧
            isBoundary ((["x", ">>> abc", "body", ">>> Send a message"].map
                String.toList).getD k []) = false)) :=
  start_idx_closest_positive_marker
    (["x", ">>> abc", "body", ">>> Send a message"].map String.toList) 3 2 (by rfl)

/-! ### Lemmas for the tagged extraction branch -/

theorem isPrefixOf_append_self : ∀ (l t : List Char), l.isPrefixOf (l ++ t) = true := by
  intro l
  induction l with
  | nil => intro t; cases t <;> rfl
  | cons c cs ih => intro t; simp [List.isPrefixOf, ih]

theorem pyFindAux_first_at (c0 : Char) (pt b : List Char) :
    ∀ (a : List Char), c0 ∉ a → ∀ i,
      pyFindAux (c0 :: pt) (a ++ (c0 :: pt) ++ b) i = some (i + a.length) := by
  intro a
  induction a with
  | nil =>
    intro _ i
    simp only [List.nil_append, List.length_nil, Nat.add_zero]
    rw [List.cons_append, pyFindAux, ← List.cons_append, if_pos (isPrefixOf_append_self _ b)]
  | cons x a ih =>
    intro hx i
    have hxc : (c0 == x) = false := by
      have : c0 ≠ x := fun he => hx (he ▸ List.mem_cons_self x a)
      simpa using this
    rw [List.cons_append, List.cons_append, pyFindAux, if_neg (by simp [List.isPrefixOf, hxc]),
      ih (fun hm => hx (List.mem_cons_of_mem x hm)) (i + 1)]
    congr 1
    simp [List.length_cons]
    omega

theorem pyFind_after_clean_head (a pt b : List Char) (c0 : Char) (h : c0 ∉ a) :
    pyFind (a ++ (c0 :: pt) ++ b) (c0 :: pt) = some a.length := by
  unfold pyFind
  simpa using pyFindAux_first_at c0 pt b a h 0

/-- Reduction of `extract_response` on a two-line buffer: one non-blank
message line followed by the boundary line. -/
theorem extract_response_single_line (ln : List Char) (hblank : isBlank ln = false) :
    extract_response [ln, PROMPT_MARKER] =
      match pyFind (pyStrip ln) HIM_TAG with
      | some p => some (taggedBody (pyStrip ln) p HIM_TAG)
      | none =>
        match pyFind (pyStrip ln) HER_TAG with
        | some p => some (taggedBody (pyStrip ln) p HER_TAG)
        | none => some (cleanFallbackLine ln) := by
  have hM : isBoundary PROMPT_MARKER = true := by decide
  have hpi : prompt_indices [ln, PROMPT_MARKER] =
      if isBoundary ln then [0, 1] else [1] := by
    cases hBL : isBoundary ln <;>
      simp [prompt_indices, List.enum, List.enumFrom, hBL, hM]
  have hpiLast : (prompt_indices [ln, PROMPT_MARKER]).getLast? = some 1 := by
    rw [hpi]
    cases isBoundary ln <;> simp
  have hpiNE : (prompt_indices [ln, PROMPT_MARKER]).isEmpty = false := by
    rw [hpi]
    cases isBoundary ln <;> simp
  have hcm : command_markers [ln, PROMPT_MARKER] 1 = [] := by
    simp [command_markers, List.range_succ]
  have hsi : start_idx [ln, PROMPT_MARKER] 1 = some 0 := by
    simp [start_idx, hcm]
  have hslice : (([ln, PROMPT_MARKER].take 1).drop 0) = [ln] := by rfl
  have htrim : trimBlanks [ln] = [ln] := by
    simp [trimBlanks, List.dropWhile, hblank]
  rw [extract_response, hpiNE]
  simp only [Bool.false_eq_true, if_false, hpiLast, hsi, hslice, htrim]
  have hjoin : joinSpace ([ln].map pyStrip) = pyStrip ln := by rfl
  rw [hjoin]
  cases pyFind (pyStrip ln) HIM_TAG with
  | some p => rfl
  | none =>
    cases pyFind (pyStrip ln) HER_TAG with
    | some p => rfl
    | none => simp [cleanFallbackLine]

/-- C10: when the joined message slice carries the man tag, the body is
always the text after the first `"👨 Him:"` occurrence (stripped, with
ellipsis-token occurrences replaced), whatever precedes the tag — in
particular a `"👩 Her:"` tag occurring earlier is dropped with the
prefix, while a `"👩 Her:"` tag occurring after the man tag stays in the
returned body together with the text following it. -/
theorem extract_him_tag_precedence (a b : List Char) (ha : '👨' ∉ a)
    (hs : pyStrip (a ++ HIM_TAG ++ b) = a ++ HIM_TAG ++ b) :
    extract_response [a ++ HIM_TAG ++ b, PROMPT_MARKER] =
        some (replaceEllipsis (pyStrip b)) ∧
      (pyStrip b = b → replaceEllipsis b = b →
        extract_response [a ++ HIM_TAG ++ b, PROMPT_MARKER] = some b) := by
  have htag : HIM_TAG = '👨' :: " Him:".toList := by rfl
  have htb : HIM_TAG ++ b ≠ [] := by
    rw [htag]
    simp
  have hblank : isBlank (a ++ HIM_TAG ++ b) = false := by
    unfold isBlank
    rw [hs]
    simp [List.isEmpty_iff, List.append_eq_nil, htb]
  have hfind : pyFind (a ++ HIM_TAG ++ b) HIM_TAG = some a.length := by
    rw [htag]
    exact pyFind_after_clean_head a _ b '👨' ha
  have hdrop : (a ++ HIM_TAG ++ b).drop (a.length + HIM_TAG.length) = b := by
    rw [show a.length + HIM_TAG.length = (a ++ HIM_TAG).length from
      (List.length_append a HIM_TAG).symm]
    exact List.drop_left (a ++ HIM_TAG) b
  have hmain : extract_response [a ++ HIM_TAG ++ b, PROMPT_MARKER] =
      some (replaceEllipsis (pyStrip b)) := by
    rw [extract_response_single_line _ hblank, hs, hfind]
    show some (taggedBody (a ++ HIM_TAG ++ b) a.length HIM_TAG) =
      some (replaceEllipsis (pyStrip b))
    unfold taggedBody
    rw [hdrop]
  exact ⟨hmain, fun h1 h2 => by rw [hmain, h1, h2]⟩

/-- Witness for C10: the woman tag occurs both before the man tag (it is
dropped) and after it (it is kept in the body). -/
theorem extract_him_tag_precedence_witness :
    extract_response ["👩 Her: yo ".toList ++ HIM_TAG ++ " sup 👩 Her: later k".toList,
          PROMPT_MARKER] =
        some (replaceEllipsis (pyStrip (" sup 👩 Her: later k".toList))) ∧
      (pyStrip (" sup 👩 Her: later k".toList) = " sup 👩 Her: later k".toList →
        replaceEllipsis (" sup 👩 Her: later k".toList) = " sup 👩 Her: later k".toList →
        extract_response ["👩 Her: yo ".toList ++ HIM_TAG ++ " sup 👩 Her: later k".toList,
          PROMPT_MARKER] = some (" sup 👩 Her: later k".toList)) :=
  extract_him_tag_precedence ("👩 Her: yo ".toList) (" sup 👩 Her: later k".toList)
    (by decide) (by decide)

/-! ### Lemmas on the ellipsis replacement -/

theorem replaceEllipsis_cons_ne (c : Char) (rest : List Char) (hc : c ≠ '.') :
    replaceEllipsis (c :: rest) = c :: replaceEllipsis rest := by
  rw [replaceEllipsis.eq_def]
  split
  · rename_i heq
    injection heq with h1 h2
    exact absurd h1 hc
  · rename_i c' rest' heq
    injection heq with h1 h2
    rw [h1, h2]
  · rename_i heq
    cases heq

theorem replaceEllipsis_no_dot_prefix : ∀ (u w : List Char), '.' ∉ u →
    replaceEllipsis (u ++ w) = u ++ replaceEllipsis w := by
  intro u
  induction u with
  | nil => intro w _; simp
  | cons c u ih =>
    intro w hc
    have hcd : c ≠ '.' := fun h => hc (h ▸ List.mem_cons_self c u)
    rw [List.cons_append, replaceEllipsis_cons_ne c (u ++ w) hcd,
      ih w (fun hm => hc (List.mem_cons_of_mem c hm)), List.cons_append]

theorem replaceEllipsis_run : ∀ (k : Nat) (v : List Char),
    replaceEllipsis (List.replicate (3 * k) '.' ++ v) =
      List.replicate k ' ' ++ replaceEllipsis v := by
  intro k
  induction k with
  | zero => intro v; rfl
  | succ k ih =>
    intro v
    have h3 : 3 * (k + 1) = 3 * k + 1 + 1 + 1 := by ring
    rw [h3, List.replicate_succ, List.replicate_succ, List.replicate_succ,
      List.cons_append, List.cons_append, List.cons_append,
      show replaceEllipsis ('.' :: '.' :: '.' :: (List.replicate (3 * k) '.' ++ v)) =
        ' ' :: replaceEllipsis (List.replicate (3 * k) '.' ++ v) from rfl,
      ih v, List.replicate_succ, List.cons_append]

/-- C7 amended: in the tagged branch, each non-overlapping occurrence of
the three-dot token, scanned left to right, is replaced by exactly one
space: for every dot-free context `u`, every continuation `v` and every
`k`, a run of `3 * k` consecutive dots after the tag becomes exactly `k`
spaces in the returned body (so six dots become two spaces, not one),
and the rest of the text receives the same per-occurrence replacement. -/
theorem ellipsis_each_occurrence_one_space (u v : List Char) (k : Nat)
    (hu : '.' ∉ u)
    (hs : pyStrip (HIM_TAG ++ (u ++ List.replicate (3 * k) '.' ++ v)) =
      HIM_TAG ++ (u ++ List.replicate (3 * k) '.' ++ v))
    (hb : pyStrip (u ++ List.replicate (3 * k) '.' ++ v) =
      u ++ List.replicate (3 * k) '.' ++ v) :
    extract_response [HIM_TAG ++ (u ++ List.replicate (3 * k) '.' ++ v), PROMPT_MARKER] =
      some (u ++ List.replicate k ' ' ++ replaceEllipsis v) := by
  have htag : HIM_TAG = '👨' :: " Him:".toList := by rfl
  have hblank : isBlank (HIM_TAG ++ (u ++ List.replicate (3 * k) '.' ++ v)) = false := by
    unfold isBlank
    rw [hs, htag]
    rfl
  have hfind : pyFind (HIM_TAG ++ (u ++ List.replicate (3 * k) '.' ++ v)) HIM_TAG =
      some 0 := by
    rw [htag]
    simpa using
      pyFind_after_clean_head [] (" Him:".toList)
        (u ++ List.replicate (3 * k) '.' ++ v) '👨' (by simp)
  rw [extract_response_single_line _ hblank, hs, hfind]
  show some (taggedBody (HIM_TAG ++ (u ++ List.replicate (3 * k) '.' ++ v)) 0 HIM_TAG) =
    some (u ++ List.replicate k ' ' ++ replaceEllipsis v)
  unfold taggedBody
  rw [Nat.zero_add, List.drop_left HIM_TAG _, hb, List.append_assoc,
    replaceEllipsis_no_dot_prefix u _ hu, replaceEllipsis_run k v, List.append_assoc]

/-- Witness for C7 (amended) at a run of six dots inside a tagged body. -/
theorem ellipsis_each_occurrence_one_space_witness :
    extract_response [HIM_TAG ++ ("ok ".toList ++ List.replicate (3 * 2) '.' ++
          "fine...bye".toList), PROMPT_MARKER] =
      some ("ok ".toList ++ List.replicate 2 ' ' ++ replaceEllipsis ("fine...bye".toList)) :=
  ellipsis_each_occurrence_one_space ("ok ".toList) ("fine...bye".toList) 2
    (by decide) (by decide) (by decide)

end TextMessages
